import Mathlib

/-!
Shallow embedding of the numeric core of the OpenCV-Playground-Two repository:
the K-means clusterer (src/kmeans.cpp, src/kmeans.h), the feature-vector
distance and retrieval utilities (src/feature_utils.cpp), and the histogram
builders and comparison drivers (histogram_utils.cpp).

Machine `float` values are modelled as exact rationals (ℚ); `uchar` pixel
channels as ℕ; C `int` as ℤ where sign matters.  Fallible code (error
returns, thrown exceptions, CV_Assert) is modelled with `Except`.
-/

namespace CBIR

/-- A `cv::Vec3b` pixel sample: three 8-bit colour channels
(`c0`,`c1`,`c2` in the storage order of the source, i.e. BGR). -/
structure Pix where
  c0 : Nat
  c1 : Nat
  c2 : Nat
deriving DecidableEq

/-- The `SSD(a,b)` macro of kmeans.h: sum over the three channels of the
squared difference, computed in C `int` arithmetic (uchar operands are
promoted to int before subtraction). -/
def SSD (a b : Pix) : Int :=
  ((a.c0 : Int) - b.c0) * ((a.c0 : Int) - b.c0) +
  ((a.c1 : Int) - b.c1) * ((a.c1 : Int) - b.c1) +
  ((a.c2 : Int) - b.c2) * ((a.c2 : Int) - b.c2)

/-- Inner loop of the classification step of `kmeans` (kmeans.cpp lines
74-85): scan the remaining means, keeping the index `minidx` of the
smallest SSD seen so far; a strictly smaller SSD replaces it. -/
def argminGo (x : Pix) : List Pix → Int → Nat → Nat → Nat
  | [], _, minidx, _ => minidx
  | m :: rest, minssd, minidx, k =>
    if SSD m x < minssd then argminGo x rest (SSD m x) k (k + 1)
    else argminGo x rest minssd minidx (k + 1)

/-- Classification of one sample (kmeans.cpp lines 74-85): start from
`means[0]` and scan means `1..K-1` with strict `<`, so ties keep the
lowest index.  The source reads `means[0]` unconditionally, which is
undefined for an empty means vector; that case is unreachable in
`kmeans` (K ≥ 1 there) and is mapped to 0 here. -/
def argminSSD (means : List Pix) (x : Pix) : Nat :=
  match means with
  | [] => 0
  | m :: rest => argminGo x rest (SSD m x) 0 1

/-- The classify step of one E-M iteration (kmeans.cpp lines 70-86):
label every sample with the index of its nearest mean. -/
def classify (data means : List Pix) : List Nat :=
  data.map (argminSSD means)

/-- One cell of the `tmeans` accumulator (`cv::Vec4i`): per-channel sums
and a counter. -/
structure Acc where
  s0 : Nat
  s1 : Nat
  s2 : Nat
  cnt : Nat
deriving DecidableEq

/-- The accumulation loop of the update step (kmeans.cpp lines 90-97):
for each sample j, add its channels into `tmeans[labels[j]]` and bump the
counter.  The source indexes `labels[j]` for `j < data.size()`; this is
the element-wise pairing `data.zip labels`. -/
def accumulate (pairs : List (Pix × Nat)) (t : List Acc) : List Acc :=
  pairs.foldl
    (fun t p =>
      let a := t.getD p.2 ⟨0, 0, 0, 0⟩
      t.set p.2 ⟨a.s0 + p.1.c0, a.s1 + p.1.c1, a.s2 + p.1.c2, a.cnt + 1⟩)
    t

/-- The update step of `kmeans` (kmeans.cpp lines 88-117): accumulate
per-cluster channel sums and counts into `tmeans` (initialised to zero),
divide by the guarded divisor (`count` if positive, else 1, avoiding a
division by zero for empty clusters), add `SSD(tmeans[k], means[k])` into
the convergence sum, and store the divided values back into the `Vec3b`
means (uchar assignment, i.e. reduction mod 256).  Returns the new means
and the convergence sum. -/
def updateMeans (data : List Pix) (labels : List Nat) (means : List Pix) :
    List Pix × Int :=
  let t := accumulate (data.zip labels) (List.replicate means.length ⟨0, 0, 0, 0⟩)
  let divided := t.map (fun a =>
    let divisor := if a.cnt > 0 then a.cnt else 1
    (⟨a.s0 / divisor, a.s1 / divisor, a.s2 / divisor⟩ : Pix))
  let sum := ((divided.zip means).map (fun q => SSD q.1 q.2)).foldl (· + ·) 0
  (divided.map (fun q => (⟨q.c0 % 256, q.c1 % 256, q.c2 % 256⟩ : Pix)), sum)

/-- The E-M loop of `kmeans` (kmeans.cpp lines 67-125): up to
`maxIterations` rounds of classify-then-update, stopping early when the
sum of squared mean movements is at most `stopThresh`.  The labels
argument carries the caller-allocated label array (overwritten by every
classify step). -/
def kmeansIter (data : List Pix) (stopThresh : Int) :
    Nat → List Pix → List Nat → List Pix × List Nat
  | 0, means, labels => (means, labels)
  | n + 1, means, labels =>
    let labels' := classify data means
    let r := updateMeans data labels' means
    if r.2 ≤ stopThresh then (r.1, labels')
    else kmeansIter data stopThresh n r.1 labels'

/-- Error outcomes of `kmeans`: the explicit `return -1` for the
parameter check, and the division-by-zero fault that `data.size() / K`
raises when K = 0 (the check `K > data.size()` compares the int K
converted to `size_t`, so negative K is caught by it but K = 0 is not). -/
inductive KmErr where
  | invalidParameter : KmErr
  | divisionByZero : KmErr
deriving DecidableEq

/-- The `kmeans` routine of kmeans.cpp.  `istep` stands for the value of
`rand()`: the source computes `istep = rand() % d_size`, so the random
offset is modelled as an explicit parameter.  `labels0` is the content of
the caller-allocated label array.  The comb-sampling initialisation picks
`K` seeds at positions `(istep + i*delta) % N`. -/
def kmeans (data : List Pix) (K : Int) (maxIterations : Nat)
    (stopThresh : Int) (istep : Nat) (labels0 : List Nat) :
    Except KmErr (List Pix × List Nat) :=
  if K < 0 ∨ (data.length : Int) < K then .error .invalidParameter
  else if K = 0 then .error .divisionByZero
  else
    let N := data.length
    let k := K.toNat
    let delta := N / k
    let dsize := if N % k > 0 then N % k else 1
    let ist := istep % dsize
    let means0 := (List.range k).map (fun i => data.getD ((ist + i * delta) % N) ⟨0, 0, 0⟩)
    .ok (kmeansIter data stopThresh maxIterations means0 labels0)

/-- Decidable equality of `Except` results, used to evaluate the embedded
functions on concrete inputs. -/
instance {ε α : Type _} [DecidableEq ε] [DecidableEq α] : DecidableEq (Except ε α) := fun x y =>
  match x, y with
  | .error a, .error b =>
    if h : a = b then isTrue (by rw [h]) else isFalse (by intro hc; cases hc; exact h rfl)
  | .ok a, .ok b =>
    if h : a = b then isTrue (by rw [h]) else isFalse (by intro hc; cases hc; exact h rfl)
  | .error _, .ok _ => isFalse (by intro hc; cases hc)
  | .ok _, .error _ => isFalse (by intro hc; cases hc)

/-! ### Facts about the update step (claim C1) -/

theorem accumulate_length (ps : List (Pix × Nat)) (t : List Acc) :
    (accumulate ps t).length = t.length := by
  induction ps generalizing t with
  | nil => rfl
  | cons p ps ih =>
    show (accumulate ps _).length = t.length
    rw [ih]
    exact List.length_set ..

theorem accumulate_getD_of_not_assigned (ps : List (Pix × Nat)) (t : List Acc)
    (k : Nat) (h : ∀ p ∈ ps, p.2 ≠ k) :
    (accumulate ps t).getD k ⟨0, 0, 0, 0⟩ = t.getD k ⟨0, 0, 0, 0⟩ := by
  induction ps generalizing t with
  | nil => rfl
  | cons p ps ih =>
    have hne : p.2 ≠ k := h p (by simp)
    show (accumulate ps _).getD k ⟨0, 0, 0, 0⟩ = t.getD k ⟨0, 0, 0, 0⟩
    rw [ih _ (fun q hq => h q (by simp [hq]))]
    simp [List.getD, List.getElem?_set_ne hne]

theorem accumulate_getElem?_of_not_assigned (ps : List (Pix × Nat)) (t : List Acc)
    (k : Nat) (h : ∀ p ∈ ps, p.2 ≠ k) :
    (accumulate ps t)[k]? = t[k]? := by
  induction ps generalizing t with
  | nil => rfl
  | cons p ps ih =>
    have hne : p.2 ≠ k := h p (by simp)
    show (accumulate ps _)[k]? = t[k]?
    rw [ih _ (fun q hq => h q (by simp [hq]))]
    exact List.getElem?_set_ne hne

/-- Claim C1 (counterexample): it is not true that a cluster with zero assigned
samples keeps its previous mean through the update step.  With one sample
labelled 0 and two means both `(3,3,3)`, cluster 1 receives no samples,
yet its mean after the update is `(0,0,0)`, not the previous `(3,3,3)`:
the zero accumulator is divided by the guarded divisor 1 and stored. -/
theorem updateMeans_keeps_empty_cluster_counterexample :
    ¬ (∀ (data : List Pix) (labels : List Nat) (means : List Pix) (k : Nat),
        k < means.length → (∀ l ∈ labels, l ≠ k) →
        (updateMeans data labels means).1.getD k ⟨0, 0, 0⟩ =
          means.getD k ⟨0, 0, 0⟩) := by
  intro h
  have h1 := h [⟨3, 3, 3⟩] [0] [⟨3, 3, 3⟩, ⟨3, 3, 3⟩] 1 (by decide) (by decide)
  have h2 : (updateMeans [⟨3, 3, 3⟩] [0] [⟨3, 3, 3⟩, ⟨3, 3, 3⟩]).1.getD 1 ⟨0, 0, 0⟩ =
      ⟨0, 0, 0⟩ := by decide
  rw [h2] at h1
  exact absurd h1 (by decide)

/-- Claim C1 (amended): in the kmeans update step, a cluster to which zero
samples are assigned has its mean set to `(0,0,0)` — the guarded divisor
only prevents a division by zero, it does not retain the previous mean. -/
theorem updateMeans_empty_cluster_zero (data : List Pix) (labels : List Nat)
    (means : List Pix) (k : Nat) (hk : k < means.length)
    (h : ∀ l ∈ labels, l ≠ k) :
    (updateMeans data labels means).1.getD k ⟨0, 0, 0⟩ = ⟨0, 0, 0⟩ := by
  have hz : ∀ p ∈ data.zip labels, p.2 ≠ k := by
    intro p hp
    exact h p.2 (List.of_mem_zip hp).2
  have ht : (accumulate (data.zip labels)
      (List.replicate means.length ⟨0, 0, 0, 0⟩))[k]? = some ⟨0, 0, 0, 0⟩ := by
    rw [accumulate_getElem?_of_not_assigned _ _ _ hz]
    simp [List.getElem?_replicate, hk]
  simp only [updateMeans]
  simp [List.getD, List.getElem?_map, ht]

/-- Claim C1 (witness for the amended theorem): concrete instance of the
empty-cluster-zeroing behaviour. -/
theorem updateMeans_empty_cluster_zero_witness :
    (updateMeans [⟨3, 3, 3⟩] [0] [⟨3, 3, 3⟩, ⟨3, 3, 3⟩]).1.getD 1 ⟨0, 0, 0⟩ =
      ⟨0, 0, 0⟩ :=
  updateMeans_empty_cluster_zero [⟨3, 3, 3⟩] [0] [⟨3, 3, 3⟩, ⟨3, 3, 3⟩] 1
    (by decide) (by decide)

/-! ### Parameter validation of kmeans (claim C2) -/

/-- Claim C2 (counterexample): it is not true that `kmeans` fails with
`InvalidParameter` whenever K is outside [1, N].  At K = 0 the check
`K > data.size()` is false (0 is not greater than N), so the routine
proceeds and `data.size() / K` divides by zero instead of reporting
`InvalidParameter`. -/
theorem kmeans_reject_out_of_range_counterexample :
    ¬ (∀ (data : List Pix) (K : Int) (mi : Nat) (st : Int) (istep : Nat)
        (l0 : List Nat),
        (K < 1 ∨ (data.length : Int) < K) →
        kmeans data K mi st istep l0 = .error .invalidParameter) := by
  intro h
  have h1 := h [⟨0, 0, 0⟩] 0 10 0 0 [0] (by decide)
  exact absurd h1 (by decide)

/-- Claim C2 (amended): `kmeans` returns the `InvalidParameter` error exactly
when K > N or K < 0 (a negative K is caught because the comparison
`K > data.size()` converts K to an unsigned `size_t`); K = 0 passes the
check and triggers the division-by-zero fault at `data.size() / K`; and
for every K with 1 ≤ K ≤ N the call proceeds and succeeds. -/
theorem kmeans_param_check (data : List Pix) (K : Int) (mi : Nat) (st : Int)
    (istep : Nat) (l0 : List Nat) :
    (kmeans data K mi st istep l0 = .error .invalidParameter ↔
      K < 0 ∨ (data.length : Int) < K) ∧
    (K = 0 → kmeans data K mi st istep l0 = .error .divisionByZero) ∧
    (1 ≤ K → K ≤ (data.length : Int) →
      ∃ r, kmeans data K mi st istep l0 = .ok r) := by
  refine ⟨⟨?_, ?_⟩, ?_, ?_⟩
  · intro he
    by_contra hcond
    rw [kmeans, if_neg hcond] at he
    by_cases h0 : K = 0
    · rw [if_pos h0] at he
      simp at he
    · rw [if_neg h0] at he
      simp at he
  · intro hcond
    rw [kmeans, if_pos hcond]
  · intro h0
    have hcond : ¬(K < 0 ∨ (data.length : Int) < K) := by omega
    rw [kmeans, if_neg hcond, if_pos h0]
  · intro hk1 hkN
    have hcond : ¬(K < 0 ∨ (data.length : Int) < K) := by omega
    have h0 : ¬(K = 0) := by omega
    rw [kmeans, if_neg hcond, if_neg h0]
    exact ⟨_, rfl⟩

/-- Claim C2 (witness for the amended theorem): a call with K = 1 on two
samples succeeds. -/
theorem kmeans_param_check_witness :
    ∃ r, kmeans [⟨1, 1, 1⟩, ⟨2, 2, 2⟩] 1 10 0 0 [0, 0] = .ok r :=
  (kmeans_param_check [⟨1, 1, 1⟩, ⟨2, 2, 2⟩] 1 10 0 0 [0, 0]).2.2
    (by decide) (by decide)

/-! ### Successful kmeans calls (claim C3) -/

theorem argminGo_spec (x : Pix) (z : Pix) :
    ∀ (rest pre : List Pix) (minssd : Int) (minidx k : Nat),
      minidx < k → k = pre.length →
      SSD ((pre ++ rest).getD minidx z) x = minssd →
      (∀ j, j < k → minssd ≤ SSD ((pre ++ rest).getD j z) x) →
      (∀ j, j < minidx → minssd < SSD ((pre ++ rest).getD j z) x) →
      argminGo x rest minssd minidx k < (pre ++ rest).length ∧
      (∀ j, j < (pre ++ rest).length →
        SSD ((pre ++ rest).getD (argminGo x rest minssd minidx k) z) x ≤
          SSD ((pre ++ rest).getD j z) x) ∧
      (∀ j, j < argminGo x rest minssd minidx k →
        SSD ((pre ++ rest).getD (argminGo x rest minssd minidx k) z) x <
          SSD ((pre ++ rest).getD j z) x) := by
  intro rest
  induction rest with
  | nil =>
    intro pre minssd minidx k hik hk hval hle hlt
    simp only [argminGo, List.append_nil] at *
    subst hk
    refine ⟨hik.trans_le (Nat.le_refl _) |>.trans_le (le_of_eq rfl), ?_, ?_⟩
    · intro j hj
      rw [hval]
      exact hle j hj
    · intro j hj
      rw [hval]
      exact hlt j hj
  | cons m rest ih =>
    intro pre minssd minidx k hik hk hval hle hlt
    have hgetk : (pre ++ m :: rest).getD k z = m := by
      subst hk
      simp [List.getD_eq_getElem?_getD, List.getElem?_append_right (Nat.le_refl _)]
    have hassoc : pre ++ m :: rest = (pre ++ [m]) ++ rest := by simp
    simp only [argminGo]
    by_cases hlt' : SSD m x < minssd
    · rw [if_pos hlt']
      have := ih (pre ++ [m]) (SSD m x) k (k + 1)
        (Nat.lt_succ_self k)
        (by simp [← hk])
        (by rw [← hassoc, hgetk])
        (by
          intro j hj
          rcases Nat.lt_succ_iff_lt_or_eq.mp hj with hj' | hj'
          · rw [← hassoc]
            exact le_of_lt (lt_of_lt_of_le hlt' (hle j hj'))
          · subst hj'
            rw [← hassoc, hgetk])
        (by
          intro j hj
          rw [← hassoc]
          exact lt_of_lt_of_le hlt' (hle j hj))
      rw [← hassoc] at this
      exact this
    · rw [if_neg hlt']
      have := ih (pre ++ [m]) minssd minidx (k + 1)
        (hik.trans (Nat.lt_succ_self k))
        (by simp [← hk])
        (by rw [← hassoc]; exact hval)
        (by
          intro j hj
          rcases Nat.lt_succ_iff_lt_or_eq.mp hj with hj' | hj'
          · rw [← hassoc]
            exact hle j hj'
          · subst hj'
            rw [← hassoc, hgetk]
            exact le_of_not_lt hlt')
        (by
          intro j hj
          rw [← hassoc]
          exact hlt j hj)
      rw [← hassoc] at this
      exact this

theorem argminSSD_spec (means : List Pix) (x : Pix) (hne : means ≠ []) :
    argminSSD means x < means.length ∧
    (∀ j, j < means.length →
      SSD (means.getD (argminSSD means x) ⟨0, 0, 0⟩) x ≤
        SSD (means.getD j ⟨0, 0, 0⟩) x) ∧
    (∀ j, j < argminSSD means x →
      SSD (means.getD (argminSSD means x) ⟨0, 0, 0⟩) x <
        SSD (means.getD j ⟨0, 0, 0⟩) x) := by
  match means with
  | [] => exact absurd rfl hne
  | m :: rest =>
    have := argminGo_spec x ⟨0, 0, 0⟩ rest [m] (SSD m x) 0 1
      Nat.one_pos rfl rfl
      (by
        intro j hj
        interval_cases j
        simp)
      (by intro j hj; exact absurd hj (Nat.not_lt_zero j))
    simpa [argminSSD] using this

theorem updateMeans_length (data : List Pix) (labels : List Nat) (means : List Pix) :
    (updateMeans data labels means).1.length = means.length := by
  simp [updateMeans, accumulate_length]

theorem kmeansIter_spec (data : List Pix) (st : Int) :
    ∀ (n : Nat) (means : List Pix) (labels : List Nat),
      (kmeansIter data st n means labels).1.length = means.length ∧
      (n = 0 → kmeansIter data st n means labels = (means, labels)) ∧
      (1 ≤ n → ∃ m : List Pix, m.length = means.length ∧
        (kmeansIter data st n means labels).2 = classify data m) := by
  intro n
  induction n with
  | zero =>
    intro means labels
    exact ⟨rfl, fun _ => rfl, fun h => absurd h (by decide)⟩
  | succ n ih =>
    intro means labels
    simp only [kmeansIter]
    by_cases hstop : (updateMeans data (classify data means) means).2 ≤ st
    · rw [if_pos hstop]
      exact ⟨updateMeans_length .., fun h => absurd h (Nat.succ_ne_zero n),
        fun _ => ⟨means, rfl, rfl⟩⟩
    · rw [if_neg hstop]
      obtain ⟨ih1, ih2, ih3⟩ :=
        ih (updateMeans data (classify data means) means).1 (classify data means)
      refine ⟨by rw [ih1, updateMeans_length], fun h => absurd h (Nat.succ_ne_zero n), ?_⟩
      intro _
      rcases Nat.eq_zero_or_pos n with hn | hn
      · subst hn
        rw [ih2 rfl]
        exact ⟨means, rfl, rfl⟩
      · obtain ⟨m, hm1, hm2⟩ := ih3 hn
        exact ⟨m, by rw [hm1, updateMeans_length], hm2⟩

/-- Claim C3: for every data set of N ≥ 1 samples and every K with 1 ≤ K ≤ N
(and at least one E-M iteration, the source default being 10), `kmeans`
succeeds and returns exactly K cluster means and N labels; the labels are
the classification of the data against a size-K means vector, every label
lies in [0, K), and the classification of any sample against any
non-empty means vector picks the index of a mean with minimal SSD,
breaking ties toward the lowest index (every strictly smaller index has
strictly larger SSD). -/
theorem kmeans_success_spec (data : List Pix) (K : Int) (mi : Nat) (st : Int)
    (istep : Nat) (l0 : List Nat) (hK1 : 1 ≤ K) (hKN : K ≤ (data.length : Int))
    (hmi : 1 ≤ mi) :
    ∃ means labels, kmeans data K mi st istep l0 = .ok (means, labels) ∧
      (means.length : Int) = K ∧ labels.length = data.length ∧
      (∃ m : List Pix, (m.length : Int) = K ∧ labels = classify data m) ∧
      (∀ l ∈ labels, (l : Int) < K) ∧
      (∀ (ms : List Pix) (x : Pix), ms ≠ [] →
        argminSSD ms x < ms.length ∧
        (∀ j, j < ms.length →
          SSD (ms.getD (argminSSD ms x) ⟨0, 0, 0⟩) x ≤
            SSD (ms.getD j ⟨0, 0, 0⟩) x) ∧
        (∀ j, j < argminSSD ms x →
          SSD (ms.getD (argminSSD ms x) ⟨0, 0, 0⟩) x <
            SSD (ms.getD j ⟨0, 0, 0⟩) x)) := by
  have hcond : ¬(K < 0 ∨ (data.length : Int) < K) := by omega
  have h0 : ¬(K = 0) := by omega
  have hKt : 1 ≤ K.toNat := by omega
  have hKcast : (K.toNat : Int) = K := Int.toNat_of_nonneg (by omega)
  have heq : kmeans data K mi st istep l0 =
      .ok (kmeansIter data st mi
        ((List.range K.toNat).map (fun i =>
          data.getD ((istep % (if data.length % K.toNat > 0
            then data.length % K.toNat else 1) +
            i * (data.length / K.toNat)) % data.length) ⟨0, 0, 0⟩)) l0) := by
    rw [kmeans, if_neg hcond, if_neg h0]
  set means0 := (List.range K.toNat).map (fun i =>
    data.getD ((istep % (if data.length % K.toNat > 0
      then data.length % K.toNat else 1) +
      i * (data.length / K.toNat)) % data.length) ⟨0, 0, 0⟩) with hmeans0
  have hm0len : means0.length = K.toNat := by
    rw [hmeans0]
    simp
  obtain ⟨hlen1, _, hlab⟩ := kmeansIter_spec data st mi means0 l0
  obtain ⟨m, hm1, hm2⟩ := hlab hmi
  refine ⟨(kmeansIter data st mi means0 l0).1, (kmeansIter data st mi means0 l0).2,
    by rw [heq], by rw [hlen1, hm0len, hKcast], ?_, ?_, ?_, ?_⟩
  · rw [hm2]
    simp [classify]
  · exact ⟨m, by rw [hm1, hm0len, hKcast], hm2⟩
  · intro l hl
    rw [hm2] at hl
    simp only [classify, List.mem_map] at hl
    obtain ⟨x, _, hx⟩ := hl
    have hmne : m ≠ [] := by
      intro hnil
      rw [hnil] at hm1
      simp at hm1
      omega
    have := (argminSSD_spec m x hmne).1
    rw [hx] at this
    have hlt : (l : Int) < (m.length : Int) := by exact_mod_cast this
    rw [hm1, hm0len, hKcast] at hlt
    exact hlt
  · intro ms x hne
    exact argminSSD_spec ms x hne

/-- Claim C3 (witness): a concrete successful call with N = 2 samples and
K = 2. -/
theorem kmeans_success_spec_witness :
    ∃ means labels,
      kmeans [⟨1, 2, 3⟩, ⟨9, 9, 9⟩] 2 10 0 5 [7, 7] = .ok (means, labels) ∧
      (means.length : Int) = 2 ∧ labels.length = 2 ∧
      (∃ m : List Pix, (m.length : Int) = 2 ∧
        labels = classify [⟨1, 2, 3⟩, ⟨9, 9, 9⟩] m) ∧
      (∀ l ∈ labels, (l : Int) < 2) ∧
      (∀ (ms : List Pix) (x : Pix), ms ≠ [] →
        argminSSD ms x < ms.length ∧
        (∀ j, j < ms.length →
          SSD (ms.getD (argminSSD ms x) ⟨0, 0, 0⟩) x ≤
            SSD (ms.getD j ⟨0, 0, 0⟩) x) ∧
        (∀ j, j < argminSSD ms x →
          SSD (ms.getD (argminSSD ms x) ⟨0, 0, 0⟩) x <
            SSD (ms.getD j ⟨0, 0, 0⟩) x)) :=
  kmeans_success_spec [⟨1, 2, 3⟩, ⟨9, 9, 9⟩] 2 10 0 5 [7, 7]
    (by decide) (by decide) (by decide)

/-! ### Histograms (histogram_utils.cpp) -/

/-- A dense 2-D `cv::Mat` of `float` bins (CV_32F), as used by the
histogram builders: a `rows` by `cols` shape and the bin values (entries
outside the shape are irrelevant and read as the function gives them). -/
structure Hist where
  rows : Nat
  cols : Nat
  val : Nat → Nat → ℚ

/-- Error raised by `CV_Assert(histA.size == histB.size)` in
`histIntersect` when the two histograms differ in shape. -/
inductive HistErr where
  | dimensionMismatch : HistErr
deriving DecidableEq

/-- The double summation loop of `histIntersect` (histogram_utils.cpp):
sum of the per-bin minimum over the `rows` by `cols` grid of `A`. -/
def intersectSum (A B : Hist) : ℚ :=
  ((List.range A.rows).map (fun h =>
    ((List.range A.cols).map (fun s => min (A.val h s) (B.val h s))).sum)).sum

/-- `histIntersect` (histogram_utils.cpp lines 18-36): assert that the
two histograms have the same size (`CV_Assert`, modelled as the
`DimensionMismatch` error), then sum the per-bin minima. -/
def histIntersect (A B : Hist) : Except HistErr ℚ :=
  if A.rows = B.rows ∧ A.cols = B.cols then .ok (intersectSum A B)
  else .error .dimensionMismatch

/-- Total mass of a histogram: the sum of all of its bin values. -/
def totalMass (A : Hist) : ℚ :=
  ((List.range A.rows).map (fun h =>
    ((List.range A.cols).map (fun s => A.val h s)).sum)).sum

/-- Claim C5: the self-intersection of any histogram equals the sum of its bin
values (each per-bin minimum `min(v, v)` is `v` itself). -/
theorem histIntersect_self (A : Hist) :
    histIntersect A A = .ok (totalMass A) := by
  simp [histIntersect, intersectSum, totalMass]

/-- Claim C6: `histIntersect` fails with `DimensionMismatch` exactly when the
two histograms differ in shape (rows or cols), and returns a value
whenever the shapes agree. -/
theorem histIntersect_dim_check (A B : Hist) :
    (histIntersect A B = .error .dimensionMismatch ↔
      ¬(A.rows = B.rows ∧ A.cols = B.cols)) ∧
    ((∃ v, histIntersect A B = .ok v) ↔ (A.rows = B.rows ∧ A.cols = B.cols)) := by
  constructor
  · constructor
    · intro he hc
      rw [histIntersect, if_pos hc] at he
      cases he
    · intro hc
      rw [histIntersect, if_neg hc]
  · constructor
    · rintro ⟨v, hv⟩
      by_contra hc
      rw [histIntersect, if_neg hc] at hv
      cases hv
    · intro hc
      rw [histIntersect, if_pos hc]
      exact ⟨_, rfl⟩

/-! ### The RG chromaticity histogram builder (claim C7) -/

/-- A C-style `(int)` cast of a float value: truncation toward zero. -/
def cIntCast (x : ℚ) : Int := if 0 ≤ x then Int.floor x else -Int.floor (-x)

/-- A 3-channel 8-bit image (`cv::Mat` of `Vec3b`): a `rows` by `cols`
grid of pixels. -/
structure Img where
  rows : Nat
  cols : Nat
  px : Nat → Nat → Pix

/-- The row-major traversal order of the pixel loops in the histogram
builders. -/
def pixelList (img : Img) : List Pix :=
  ((List.range img.rows).map (fun i =>
    (List.range img.cols).map (fun j => img.px i j))).join

/-- One histogram increment `hist.at<float>(i, j)++`. -/
def histInc (h : Hist) (i j : Nat) : Hist :=
  ⟨h.rows, h.cols, fun a b => if a = i ∧ b = j then h.val a b + 1 else h.val a b⟩

/-- The per-pixel body of `calcRgbHist` (histogram_utils.cpp lines
340-364): read the BGR channels, compute the r,g chromaticity with the
divisor floored to 1 when all channels are zero, quantize each ratio via
`(int)(ratio * (histSize - 1) + 0.5)`, and increment the (rIndex, gIndex)
cell. -/
def rgbStep (histSize : Nat) (h : Hist) (p : Pix) : Hist :=
  let blue : ℚ := p.c0
  let green : ℚ := p.c1
  let red : ℚ := p.c2
  let divisor : ℚ := if red + green + blue > 0 then red + green + blue else 1
  let r := red / divisor
  let g := green / divisor
  let gIndex := cIntCast (g * ((histSize : ℚ) - 1) + 1 / 2)
  let rIndex := cIntCast (r * ((histSize : ℚ) - 1) + 1 / 2)
  histInc h rIndex.toNat gIndex.toNat

/-- `calcRgbHist` (histogram_utils.cpp lines 332-370): accumulate the
chromaticity histogram over all pixels of the image, then normalize by
dividing every cell by the total pixel count `src.rows * src.cols`. -/
def calcRgbHist (image : Img) (histSize : Nat) : Hist :=
  let hist := (pixelList image).foldl (rgbStep histSize) ⟨histSize, histSize, fun _ _ => 0⟩
  ⟨hist.rows, hist.cols, fun i j => hist.val i j / ((image.rows * image.cols : Nat) : ℚ)⟩

theorem cIntCast_third (hs : Nat) (hhs : 1 ≤ hs) :
    cIntCast (1 / 3 * ((hs : ℚ) - 1) + 1 / 2) = round (((hs : ℚ) - 1) / 3) := by
  have h1 : (1 : ℚ) ≤ (hs : ℚ) := by exact_mod_cast hhs
  rw [cIntCast, if_pos (by nlinarith), round_eq]
  ring_nf

theorem rgbStep_gray (hs v : Nat) (hhs : 1 ≤ hs) (hv : 1 ≤ v) (h : Hist) :
    rgbStep hs h ⟨v, v, v⟩ =
      histInc h (round (((hs : ℚ) - 1) / 3)).toNat
        (round (((hs : ℚ) - 1) / 3)).toNat := by
  have hv' : (0 : ℚ) < (v : ℚ) := by exact_mod_cast hv
  have hdiv : ((v : ℚ) + (v : ℚ) + (v : ℚ)) > 0 := by linarith
  have hr : (v : ℚ) / ((v : ℚ) + (v : ℚ) + (v : ℚ)) = 1 / 3 := by
    field_simp
    ring
  simp only [rgbStep]
  rw [if_pos hdiv, hr, cIntCast_third hs hhs]

theorem foldl_rgbStep_shape (hs : Nat) (l : List Pix) (h0 : Hist) :
    (l.foldl (rgbStep hs) h0).rows = h0.rows ∧
    (l.foldl (rgbStep hs) h0).cols = h0.cols := by
  induction l generalizing h0 with
  | nil => exact ⟨rfl, rfl⟩
  | cons p l ih => exact ih (rgbStep hs h0 p)

theorem foldl_rgbStep_gray (hs v : Nat) (hhs : 1 ≤ hs) (hv : 1 ≤ v) :
    ∀ (l : List Pix) (h0 : Hist), (∀ p ∈ l, p = ⟨v, v, v⟩) →
      ∀ i j, (l.foldl (rgbStep hs) h0).val i j =
        h0.val i j +
          if i = (round (((hs : ℚ) - 1) / 3)).toNat ∧
             j = (round (((hs : ℚ) - 1) / 3)).toNat
          then (l.length : ℚ) else 0 := by
  intro l
  induction l with
  | nil =>
    intro h0 _ i j
    simp
  | cons p l ih =>
    intro h0 hall i j
    have hp : p = ⟨v, v, v⟩ := hall p (by simp)
    subst hp
    show (l.foldl (rgbStep hs) (rgbStep hs h0 ⟨v, v, v⟩)).val i j = _
    rw [ih _ (fun q hq => hall q (by simp [hq])) i j, rgbStep_gray hs v hhs hv]
    simp only [histInc]
    by_cases hij : i = (round (((hs : ℚ) - 1) / 3)).toNat ∧
        j = (round (((hs : ℚ) - 1) / 3)).toNat
    · rw [if_pos hij, if_pos hij, if_pos hij, List.length_cons]
      push_cast
      ring
    · rw [if_neg hij, if_neg hij, if_neg hij]

theorem pixelList_length (img : Img) :
    (pixelList img).length = img.rows * img.cols := by
  simp [pixelList, List.length_join, List.map_map, Function.comp_def]

theorem mem_pixelList (img : Img) (p : Pix) (hp : p ∈ pixelList img) :
    ∃ i j, i < img.rows ∧ j < img.cols ∧ p = img.px i j := by
  simp only [pixelList, List.mem_join, List.mem_map, List.mem_range] at hp
  obtain ⟨l, ⟨i, hi, hl⟩, hpl⟩ := hp
  subst hl
  simp only [List.mem_map, List.mem_range] at hpl
  obtain ⟨j, hj, hpj⟩ := hpl
  exact ⟨i, j, hi, hj, hpj.symm⟩

/-- Claim C7 (counterexample): the all-black 1-by-1 image is uniform gray
(red = green = blue = 0) with at least one pixel, yet with histSize = 30
the bin at round((histSize-1)/3) = 10 holds 0, not 1: the zero pixel has
its chromaticity computed with the divisor floored to 1, so r = g = 0 and
all mass lands in bin (0, 0). -/
theorem calcRgbHist_gray_counterexample :
    (round (((30 : ℚ) - 1) / 3)).toNat = 10 ∧
    (calcRgbHist ⟨1, 1, fun _ _ => ⟨0, 0, 0⟩⟩ 30).val 10 10 = 0 := by
  constructor
  · have h10 : round (((30 : ℚ) - 1) / 3) = 10 := by norm_num [round_eq]
    rw [h10]
    rfl
  · norm_num [calcRgbHist, pixelList, rgbStep, histInc, cIntCast, List.range_succ]

/-- Claim C7 (amended): for every uniform image whose pixels all share one
positive gray value (red = green = blue ≥ 1) and every histSize ≥ 1, the
chromaticity histogram of `calcRgbHist` has value 1 in the bin with row
and column index round((histSize-1)/3) and 0 in every other cell. -/
theorem calcRgbHist_uniform_gray (img : Img) (v hs : Nat) (hhs : 1 ≤ hs)
    (hv : 1 ≤ v) (hr : 1 ≤ img.rows) (hc : 1 ≤ img.cols)
    (hgray : ∀ i j, i < img.rows → j < img.cols → img.px i j = ⟨v, v, v⟩) :
    (calcRgbHist img hs).val (round (((hs : ℚ) - 1) / 3)).toNat
        (round (((hs : ℚ) - 1) / 3)).toNat = 1 ∧
    (∀ i j, ¬(i = (round (((hs : ℚ) - 1) / 3)).toNat ∧
        j = (round (((hs : ℚ) - 1) / 3)).toNat) →
      (calcRgbHist img hs).val i j = 0) := by
  have hall : ∀ p ∈ pixelList img, p = (⟨v, v, v⟩ : Pix) := by
    intro p hp
    obtain ⟨i, j, hi, hj, hpij⟩ := mem_pixelList img p hp
    rw [hpij]
    exact hgray i j hi hj
  have hcount : ((img.rows * img.cols : Nat) : ℚ) ≠ 0 := by
    have : 1 ≤ img.rows * img.cols := Nat.one_le_iff_ne_zero.mpr (by positivity)
    exact_mod_cast Nat.pos_iff_ne_zero.mp this
  constructor
  · show ((pixelList img).foldl (rgbStep hs) ⟨hs, hs, fun _ _ => 0⟩).val _ _ /
      ((img.rows * img.cols : Nat) : ℚ) = 1
    rw [foldl_rgbStep_gray hs v hhs hv (pixelList img) _ hall]
    rw [if_pos ⟨rfl, rfl⟩, pixelList_length]
    show ((0 : ℚ) + ((img.rows * img.cols : Nat) : ℚ)) / _ = 1
    rw [zero_add, div_self hcount]
  · intro i j hij
    show ((pixelList img).foldl (rgbStep hs) ⟨hs, hs, fun _ _ => 0⟩).val i j /
      ((img.rows * img.cols : Nat) : ℚ) = 0
    rw [foldl_rgbStep_gray hs v hhs hv (pixelList img) _ hall, if_neg hij]
    simp

/-- Claim C7 (witness for the amended theorem): a 1-by-1 mid-gray image with
histSize = 30 concentrates all mass in bin (10, 10). -/
theorem calcRgbHist_uniform_gray_witness :
    (calcRgbHist ⟨1, 1, fun _ _ => ⟨128, 128, 128⟩⟩ 30).val
        (round (((30 : ℚ) - 1) / 3)).toNat (round (((30 : ℚ) - 1) / 3)).toNat = 1 ∧
    (∀ i j, ¬(i = (round (((30 : ℚ) - 1) / 3)).toNat ∧
        j = (round (((30 : ℚ) - 1) / 3)).toNat) →
      (calcRgbHist ⟨1, 1, fun _ _ => ⟨128, 128, 128⟩⟩ 30).val i j = 0) :=
  calcRgbHist_uniform_gray ⟨1, 1, fun _ _ => ⟨128, 128, 128⟩⟩ 128 30
    (by decide) (by decide) (by decide) (by decide)
    (fun i j _ _ => rfl)

/-! ### Feature vectors and distances (feature_utils.cpp) -/

/-- `computeDistance` (feature_utils.cpp lines 49-58): sum of squared
per-component differences, looping over `vector1.size()` and indexing
`vector2[i]` at the same positions (an out-of-range read is undefined
behaviour in the source; it is modelled as reading 0). -/
def computeDistance (vector1 vector2 : List ℚ) : ℚ :=
  ((List.range vector1.length).map (fun i =>
    (vector1.getD i 0 - vector2.getD i 0) *
    (vector1.getD i 0 - vector2.getD i 0))).sum

theorem computeDistance_cons (x y : ℚ) (xs ys : List ℚ) :
    computeDistance (x :: xs) (y :: ys) =
      (x - y) * (x - y) + computeDistance xs ys := by
  simp only [computeDistance, List.length_cons, List.range_succ_eq_map,
    List.map_cons, List.map_map, List.sum_cons, Function.comp_def,
    List.getD_cons_zero, List.getD_cons_succ]

theorem computeDistance_nonneg (a b : List ℚ) : 0 ≤ computeDistance a b := by
  apply List.sum_nonneg
  intro x hx
  simp only [List.mem_map] at hx
  obtain ⟨i, _, hi⟩ := hx
  rw [← hi]
  exact mul_self_nonneg _

/-- Claim C8: on equal-length vectors (the only case in which the source's
index loop is well defined), the sum-of-squared-differences distance is
symmetric, and it is zero exactly when the two vectors are element-wise
equal. -/
theorem computeDistance_symm_zero (a b : List ℚ) (h : a.length = b.length) :
    computeDistance a b = computeDistance b a ∧
    (computeDistance a b = 0 ↔ a = b) := by
  induction a generalizing b with
  | nil =>
    cases b with
    | nil => exact ⟨rfl, by simp [computeDistance]⟩
    | cons y ys => simp at h
  | cons x xs ih =>
    cases b with
    | nil => simp at h
    | cons y ys =>
      have h' : xs.length = ys.length := by simpa using h
      obtain ⟨ihsymm, ihzero⟩ := ih ys h'
      rw [computeDistance_cons, computeDistance_cons]
      constructor
      · have hsq : (x - y) * (x - y) = (y - x) * (y - x) := by ring
        rw [ihsymm, hsq]
      · constructor
        · intro h0
          have h1 : 0 ≤ (x - y) * (x - y) := mul_self_nonneg _
          have h2 : 0 ≤ computeDistance xs ys := computeDistance_nonneg xs ys
          have hx1 : (x - y) * (x - y) = 0 := by linarith
          have hx2 : computeDistance xs ys = 0 := by linarith
          have hxy : x = y := by
            have := mul_self_eq_zero.mp hx1
            have := sub_eq_zero.mp this
            exact this
          rw [hxy, ihzero.mp hx2]
        · intro heq
          rw [List.cons.injEq] at heq
          obtain ⟨h1, h2⟩ := heq
          rw [h1, sub_self, zero_mul, zero_add]
          exact ihzero.mpr h2

/-- Claim C8 (witness): concrete instance at the pair ([1,2], [3,5]). -/
theorem computeDistance_symm_zero_witness :
    computeDistance [1, 2] [3, 5] = computeDistance [3, 5] [1, 2] ∧
    (computeDistance [1, 2] [3, 5] = 0 ↔ ([1, 2] : List ℚ) = [3, 5]) :=
  computeDistance_symm_zero [1, 2] [3, 5] rfl

/-- The `ImageMatch` struct of feature_utils.h: a filename and the
distance of that corpus entry from the target. -/
structure ImageMatch where
  filename : String
  distance : ℚ
deriving DecidableEq

instance : DecidableRel (fun a b : ImageMatch => a.distance ≤ b.distance) :=
  fun a b => inferInstanceAs (Decidable (a.distance ≤ b.distance))

instance : IsTotal ImageMatch (fun a b => a.distance ≤ b.distance) :=
  ⟨fun _ _ => le_total _ _⟩

instance : IsTrans ImageMatch (fun a b => a.distance ≤ b.distance) :=
  ⟨fun _ _ _ => le_trans⟩

/-- Conversion of a C `int` to `size_t`, as performed by the comparison
`matches.size() > topN` (a negative `topN` becomes a huge unsigned
value). -/
def sizeT (n : Int) : Nat := (n % ((2 : Int) ^ 64)).toNat

/-- The collection loop of the vector overload of `findTopNMatches`
(feature_utils.cpp lines 131-150): score every corpus record against the
target, skip negative distances (with a diagnostic) and zero distances
(silently), and append the rest in corpus order. -/
def collectMatches (targetVector : List ℚ) :
    List (String × List ℚ) → List ImageMatch
  | [] => []
  | p :: rest =>
    let distance := computeDistance targetVector p.2
    if distance < 0 then collectMatches targetVector rest
    else if distance = 0 then collectMatches targetVector rest
    else ⟨p.1, distance⟩ :: collectMatches targetVector rest

/-- The vector overload of `findTopNMatches` (feature_utils.cpp lines
123-163): collect the scored matches, sort them by ascending distance
(`std::sort` with comparator `a.distance < b.distance`; modelled by the
stable insertion sort of the same order, one of the permitted results),
then `resize(topN)` when more than `topN` matches survive. -/
def findTopNMatchesVec (targetVector : List ℚ)
    (featureVectors : List (String × List ℚ)) (topN : Int) : List ImageMatch :=
  let ms := List.insertionSort (fun a b => a.distance ≤ b.distance)
    (collectMatches targetVector featureVectors)
  if ms.length > sizeT topN then ms.take (sizeT topN) else ms

/-- A grayscale 8-bit image, the result of
`cv::imread(path, IMREAD_GRAYSCALE)`. -/
structure GImg where
  rows : Nat
  cols : Nat
  px : Nat → Nat → Nat

/-- `extractFeatureVector` (feature_utils.cpp lines 18-40): decode the
image in grayscale (`decoded` is the decode result for `imagePath`),
throw `Could not read image` if the decode failed, take the central 7x7
patch (the `cv::Rect` constructor asserts the patch lies inside the
image) and flatten it row-major into a float vector. -/
def extractFeatureVector (imagePath : String) (decoded : Option GImg) :
    Except String (List ℚ) :=
  match decoded with
  | none => .error ("Could not read image: " ++ imagePath)
  | some image =>
    if 3 ≤ image.cols / 2 ∧ image.cols / 2 + 4 ≤ image.cols ∧
       3 ≤ image.rows / 2 ∧ image.rows / 2 + 4 ≤ image.rows then
      .ok (((List.range 7).map (fun i =>
        (List.range 7).map (fun j =>
          ((image.px (image.rows / 2 - 3 + i) (image.cols / 2 - 3 + j) : Nat) : ℚ)))).join)
    else .error ("roi out of bounds: " ++ imagePath)

/-- The corpus loop of the directory overload of `findTopNMatches`
(feature_utils.cpp lines 90-108): extract a feature vector for every
directory entry in order.  `extractFeatureVector` throws on a failed
decode and the loop has no handler, so the error aborts the whole scan. -/
def collectMatchesDir (targetVector : List ℚ) :
    List (String × Option GImg) → Except String (List ImageMatch)
  | [] => .ok []
  | e :: rest =>
    match extractFeatureVector e.1 e.2 with
    | .error msg => .error msg
    | .ok fv =>
      let distance := computeDistance targetVector fv
      if distance < 0 then collectMatchesDir targetVector rest
      else if distance = 0 then collectMatchesDir targetVector rest
      else
        match collectMatchesDir targetVector rest with
        | .error msg => .error msg
        | .ok ms => .ok (⟨e.1, distance⟩ :: ms)

/-- The directory overload of `findTopNMatches` (feature_utils.cpp lines
81-121): extract the target's vector, scan the directory entries (the
entry key is the full path, the associated option is its grayscale decode
result), then sort ascending and truncate to `topN`. -/
def findTopNMatchesDir (targetImage : String) (targetDecoded : Option GImg)
    (entries : List (String × Option GImg)) (topN : Int) :
    Except String (List ImageMatch) :=
  match extractFeatureVector targetImage targetDecoded with
  | .error msg => .error msg
  | .ok targetVector =>
    match collectMatchesDir targetVector entries with
    | .error msg => .error msg
    | .ok ms =>
      let sorted := List.insertionSort (fun a b => a.distance ≤ b.distance) ms
      .ok (if sorted.length > sizeT topN then sorted.take (sizeT topN) else sorted)

theorem sizeT_le_toNat (n : Int) (h : 0 ≤ n) : sizeT n ≤ n.toNat := by
  rcases lt_or_le n ((2 : Int) ^ 64) with hlt | hge
  · rw [sizeT, Int.emod_eq_of_lt h hlt]
  · have h1 : n % ((2 : Int) ^ 64) < (2 : Int) ^ 64 :=
      Int.emod_lt_of_pos n (by norm_num)
    have h2 : n % ((2 : Int) ^ 64) ≤ n := le_trans (le_of_lt h1) hge
    exact Int.toNat_le_toNat h2

/-- Claim C9: ranking by `findTopNMatches` is monotone in distance and
truncated: for the corpus of three vectors at distances 1, 5 and 2 from
the target, the top-2 request returns the distance-1 entry then the
distance-2 entry; and in general, for every non-negative `topN`, the
returned list is sorted by ascending distance and has at most `topN`
entries. -/
theorem findTopNMatchesVec_ranking :
    (findTopNMatchesVec [0, 0] [("a", [1, 0]), ("b", [2, 1]), ("c", [1, 1])] 2 =
      [⟨"a", 1⟩, ⟨"c", 2⟩]) ∧
    (∀ (tv : List ℚ) (fvs : List (String × List ℚ)) (topN : Int), 0 ≤ topN →
      List.Sorted (fun a b : ImageMatch => a.distance ≤ b.distance)
        (findTopNMatchesVec tv fvs topN) ∧
      (findTopNMatchesVec tv fvs topN).length ≤ topN.toNat) := by
  constructor
  · have d1 : computeDistance [0, 0] [1, 0] = 1 := by
      norm_num [computeDistance, List.range_succ]
    have d2 : computeDistance [0, 0] [2, 1] = 5 := by
      norm_num [computeDistance, List.range_succ]
    have d3 : computeDistance [0, 0] [1, 1] = 2 := by
      norm_num [computeDistance, List.range_succ]
    simp only [findTopNMatchesVec, collectMatches, d1, d2, d3]
    norm_num [List.insertionSort, List.orderedInsert, sizeT]
    rfl
  · intro tv fvs topN htn
    have hsort : List.Sorted (fun a b : ImageMatch => a.distance ≤ b.distance)
        (List.insertionSort (fun a b : ImageMatch => a.distance ≤ b.distance)
          (collectMatches tv fvs)) :=
      List.sorted_insertionSort _ _
    have hle : sizeT topN ≤ topN.toNat := sizeT_le_toNat topN htn
    simp only [findTopNMatchesVec]
    by_cases hc : (List.insertionSort (fun a b : ImageMatch => a.distance ≤ b.distance)
        (collectMatches tv fvs)).length > sizeT topN
    · rw [if_pos hc]
      constructor
      · exact List.Pairwise.sublist (List.take_sublist _ _) hsort
      · rw [List.length_take]
        exact le_trans (min_le_left _ _) hle
    · rw [if_neg hc]
      push_neg at hc
      exact ⟨hsort, le_trans hc hle⟩

/-- Claim C9 (witness): a concrete call through the general part of the
ranking theorem. -/
theorem findTopNMatchesVec_ranking_witness :
    List.Sorted (fun a b : ImageMatch => a.distance ≤ b.distance)
      (findTopNMatchesVec [0] [("x", [1])] 3) ∧
    (findTopNMatchesVec [0] [("x", [1])] 3).length ≤ (3 : Int).toNat :=
  findTopNMatchesVec_ranking.2 [0] [("x", [1])] 3 (by decide)

theorem collectMatches_distance_ne_zero (tv : List ℚ) :
    ∀ (fvs : List (String × List ℚ)) (m : ImageMatch),
      m ∈ collectMatches tv fvs → m.distance ≠ 0 := by
  intro fvs
  induction fvs with
  | nil =>
    intro m hm
    simp [collectMatches] at hm
  | cons p rest ih =>
    intro m hm
    simp only [collectMatches] at hm
    split_ifs at hm with h1 h2
    · exact ih m hm
    · exact ih m hm
    · rcases List.mem_cons.mp hm with hm1 | hm2
      · rw [hm1]
        exact h2
      · exact ih m hm2

theorem collectMatchesDir_distance_ne_zero (tv : List ℚ) :
    ∀ (entries : List (String × Option GImg)) (res : List ImageMatch),
      collectMatchesDir tv entries = .ok res → ∀ m ∈ res, m.distance ≠ 0 := by
  intro entries
  induction entries with
  | nil =>
    intro res h m hm
    simp only [collectMatchesDir] at h
    cases h
    simp at hm
  | cons e rest ih =>
    intro res h m hm
    simp only [collectMatchesDir] at h
    cases hex : extractFeatureVector e.1 e.2 with
    | error msg =>
      rw [hex] at h
      exact absurd h (by simp)
    | ok fv =>
      simp only [hex] at h
      split_ifs at h with h1 h2
      · exact ih res h m hm
      · exact ih res h m hm
      · cases hrec : collectMatchesDir tv rest with
        | error msg =>
          simp only [hrec] at h
          cases h
        | ok ms =>
          simp only [hrec, Except.ok.injEq] at h
          subst h
          rcases List.mem_cons.mp hm with hm1 | hm2
          · rw [hm1]
            exact h2
          · exact ih ms hrec m hm2

/-- Claim C10: neither overload of `findTopNMatches` ever returns a match at
distance exactly 0: both skip any corpus entry whose distance to the
target is 0, and since the distance of a vector to itself is 0, an exact
duplicate of the target's feature vector is silently excluded. -/
theorem findTopNMatches_excludes_zero :
    (∀ v : List ℚ, computeDistance v v = 0) ∧
    (∀ (tv : List ℚ) (fvs : List (String × List ℚ)) (topN : Int),
      ∀ m ∈ findTopNMatchesVec tv fvs topN, m.distance ≠ 0) ∧
    (∀ (tp : String) (tI : Option GImg) (entries : List (String × Option GImg))
      (topN : Int) (res : List ImageMatch),
      findTopNMatchesDir tp tI entries topN = .ok res →
      ∀ m ∈ res, m.distance ≠ 0) := by
  refine ⟨?_, ?_, ?_⟩
  · intro v
    simp [computeDistance]
  · intro tv fvs topN m hm
    simp only [findTopNMatchesVec] at hm
    have hmem : m ∈ List.insertionSort (fun a b : ImageMatch => a.distance ≤ b.distance)
        (collectMatches tv fvs) := by
      split_ifs at hm with hc
      · exact List.take_subset _ _ hm
      · exact hm
    rw [List.mem_insertionSort] at hmem
    exact collectMatches_distance_ne_zero tv fvs m hmem
  · intro tp tI entries topN res h m hm
    simp only [findTopNMatchesDir] at h
    cases hex : extractFeatureVector tp tI with
    | error msg =>
      rw [hex] at h
      exact absurd h (by simp)
    | ok tv =>
      simp only [hex] at h
      cases hcol : collectMatchesDir tv entries with
      | error msg =>
        simp only [hcol] at h
        cases h
      | ok ms =>
        simp only [hcol, Except.ok.injEq] at h
        subst h
        have hmem : m ∈ List.insertionSort (fun a b : ImageMatch => a.distance ≤ b.distance) ms := by
          split_ifs at hm with hc
          · exact List.take_subset _ _ hm
          · exact hm
        rw [List.mem_insertionSort] at hmem
        exact collectMatchesDir_distance_ne_zero tv entries ms hcol m hmem

/-- Claim C10 (witness): a corpus entry at distance 1 is reported and its
distance is nonzero. -/
theorem findTopNMatches_excludes_zero_witness :
    (⟨"x", 1⟩ : ImageMatch).distance ≠ 0 :=
  findTopNMatches_excludes_zero.2.1 [0] [("x", [1])] 3 ⟨"x", 1⟩ (by
    have d1 : computeDistance [0] [1] = 1 := by
      norm_num [computeDistance, List.range_succ]
    simp only [findTopNMatchesVec, collectMatches, d1]
    norm_num [List.insertionSort, List.orderedInsert, sizeT])

/-- Claim C4 (counterexample): the baseline `findTopNMatches` directory scan
does not skip a corpus entry that fails to decode: with a decodable
target and a directory holding one undecodable entry followed by one
decodable entry, the whole scan aborts with the `Could not read image`
exception and no match results are produced for the decodable entry. -/
theorem findTopNMatchesDir_aborts_on_undecodable :
    findTopNMatchesDir ("t.png") (some ⟨8, 8, fun _ _ => 0⟩)
      [("corpus/bad.jpg", none), ("corpus/good.jpg", some ⟨8, 8, fun _ _ => 1⟩)] 3 =
      .error ("Could not read image: corpus/bad.jpg") := by
  rfl

/-! ### The histogram-matching corpus scan (claim C4, amended part) -/

/-- `cv::cvtColor(src, dst, COLOR_BGR2RGB)`: swap the first and third
channels of every pixel. -/
def bgr2rgb (image : Img) : Img :=
  ⟨image.rows, image.cols, fun i j =>
    ⟨(image.px i j).c2, (image.px i j).c1, (image.px i j).c0⟩⟩

/-- Prefix test used to model `strstr`: does the second character list
start with the first? -/
def prefixAt : List Char → List Char → Bool
  | [], _ => true
  | _ :: _, [] => false
  | c :: cs, d :: ds => c == d && prefixAt cs ds

/-- `strstr(s, pat) != NULL`: some suffix of `s` starts with `pat`. -/
def hasSubstr (s pat : String) : Bool :=
  (List.range (s.toList.length + 1)).any (fun i => prefixAt pat.toList (s.toList.drop i))

def jpgExt : String := ".jpg"

def pngExt : String := ".png"

def ppmExt : String := ".ppm"

def tifExt : String := ".tif"

/-- The extension filter of `compareHistograms` (histogram_utils.cpp
lines 478-479): the entry name contains one of the four image
extensions as a substring. -/
def isImageName (name : String) : Bool :=
  hasSubstr name jpgExt || hasSubstr name pngExt ||
  hasSubstr name ppmExt || hasSubstr name tifExt

/-- The directory loop of `compareHistograms` (histogram_utils.cpp lines
476-537), specialised to its `histType == 0` (RG chromaticity) branch:
skip entries without an image extension; build `buffer = dirPath + "/" +
name`; skip entries whose image fails to decode (`!src.data` →
`continue`); skip the target path; otherwise convert BGR to RGB, build
the 30-bin chromaticity histogram, intersect it with the target
histogram (a `CV_Assert` failure there aborts the scan) and append
`(name, distance)`. -/
def compareHistGo (dirPath targetImagePath : String) (targetHist : Hist) :
    List (String × Option Img) → Except HistErr (List (String × ℚ))
  | [] => .ok []
  | e :: rest =>
    if isImageName e.1 = true then
      match e.2 with
      | none => compareHistGo dirPath targetImagePath targetHist rest
      | some src =>
        if dirPath ++ "/" ++ e.1 = targetImagePath then
          compareHistGo dirPath targetImagePath targetHist rest
        else
          match histIntersect targetHist (calcRgbHist (bgr2rgb src) 30) with
          | .error er => .error er
          | .ok distance =>
            match compareHistGo dirPath targetImagePath targetHist rest with
            | .error er => .error er
            | .ok ms => .ok ((e.1, distance) :: ms)
    else compareHistGo dirPath targetImagePath targetHist rest

/-- `compareHistograms` for `histType = 0` (histogram_utils.cpp lines
461-543): the corpus scan over the directory entries, where each entry
carries its name and the result of decoding it (`none` = decode failed). -/
def compareHistograms (dirPath targetImagePath : String) (targetHist : Hist)
    (entries : List (String × Option Img)) : Except HistErr (List (String × ℚ)) :=
  compareHistGo dirPath targetImagePath targetHist entries

/-- The expected output of the `compareHistograms` scan: one entry, in
directory order, for every extension-matching entry that decodes and is
not the target path; undecodable entries contribute nothing. -/
def rgExpected (dirPath targetImagePath : String) (targetHist : Hist)
    (entries : List (String × Option Img)) : List (String × ℚ) :=
  entries.filterMap (fun e =>
    if isImageName e.1 = true then
      match e.2 with
      | none => none
      | some src =>
        if dirPath ++ "/" ++ e.1 = targetImagePath then none
        else some (e.1, intersectSum targetHist (calcRgbHist (bgr2rgb src) 30))
    else none)

theorem calcRgbHist_shape (img : Img) (hs : Nat) :
    (calcRgbHist img hs).rows = hs ∧ (calcRgbHist img hs).cols = hs := by
  constructor
  · show ((pixelList img).foldl (rgbStep hs) ⟨hs, hs, fun _ _ => 0⟩).rows = hs
    exact (foldl_rgbStep_shape hs _ _).1
  · show ((pixelList img).foldl (rgbStep hs) ⟨hs, hs, fun _ _ => 0⟩).cols = hs
    exact (foldl_rgbStep_shape hs _ _).2

/-- Claim C4 (amended): partial-failure tolerance holds for the
`compareHistograms` corpus scan — an entry whose image fails to decode is
skipped and the scan completes with exactly one match result for every
decodable, extension-matching, non-target entry — but not for the
baseline `findTopNMatches` directory scan, which aborts on the first
undecodable entry (see the counterexample). -/
theorem compareHistograms_skips_undecodable (dirPath targetImagePath : String)
    (targetHist : Hist) (entries : List (String × Option Img))
    (hr : targetHist.rows = 30) (hc : targetHist.cols = 30) :
    compareHistograms dirPath targetImagePath targetHist entries =
      .ok (rgExpected dirPath targetImagePath targetHist entries) := by
  have hint : ∀ src : Img, histIntersect targetHist (calcRgbHist (bgr2rgb src) 30) =
      .ok (intersectSum targetHist (calcRgbHist (bgr2rgb src) 30)) := by
    intro src
    rw [histIntersect, if_pos]
    exact ⟨by rw [hr, (calcRgbHist_shape _ _).1], by rw [hc, (calcRgbHist_shape _ _).2]⟩
  simp only [compareHistograms]
  induction entries with
  | nil => rfl
  | cons e rest ih =>
    obtain ⟨name, img⟩ := e
    cases img with
    | none =>
      by_cases h1 : isImageName name = true
      · simp only [compareHistGo, rgExpected, List.filterMap_cons, h1, if_true]
        simpa [rgExpected] using ih
      · simp only [compareHistGo, rgExpected, List.filterMap_cons, h1, if_false]
        simpa [rgExpected] using ih
    | some src =>
      by_cases h1 : isImageName name = true
      · by_cases h2 : dirPath ++ "/" ++ name = targetImagePath
        · simp only [compareHistGo, rgExpected, List.filterMap_cons, h1, h2, if_true]
          simpa [rgExpected] using ih
        · simp only [compareHistGo, rgExpected, List.filterMap_cons, h1, h2,
            if_true, if_false, hint src]
          rw [show compareHistGo dirPath targetImagePath targetHist rest =
            .ok (rgExpected dirPath targetImagePath targetHist rest) from by
              simpa [rgExpected] using ih]
          simp [rgExpected]
      · simp only [compareHistGo, rgExpected, List.filterMap_cons, h1, if_false]
        simpa [rgExpected] using ih

/-- Claim C4 (witness for the amended theorem): a scan over one undecodable and
one decodable entry completes and reports exactly the decodable one. -/
theorem compareHistograms_skips_undecodable_witness :
    compareHistograms ("corpus") ("corpus/t.jpg") ⟨30, 30, fun _ _ => 0⟩
      [("bad.jpg", none), ("good.jpg", some ⟨1, 1, fun _ _ => ⟨1, 2, 3⟩⟩)] =
      .ok (rgExpected ("corpus") ("corpus/t.jpg") ⟨30, 30, fun _ _ => 0⟩
        [("bad.jpg", none), ("good.jpg", some ⟨1, 1, fun _ _ => ⟨1, 2, 3⟩⟩)]) :=
  compareHistograms_skips_undecodable ("corpus") ("corpus/t.jpg")
    ⟨30, 30, fun _ _ => 0⟩
    [("bad.jpg", none), ("good.jpg", some ⟨1, 1, fun _ _ => ⟨1, 2, 3⟩⟩)] rfl rfl

end CBIR
